import Mathlib

/-!
Shallow embedding of the KeyBot key/license lifecycle manager
(`src/key_system_bot.py`) and verification of the specification's claims
about it.

The remote gist document is modeled as the `String` content of `keys.txt`;
the in-memory record set is a `List Entry`.  External effects (the Discord
guild's role table, the role-grant call, and the gist write) are modeled as
explicit boolean / function parameters of the operations that perform them.
Python string primitives used by the source (`str.strip`, `str.splitlines`,
`str.split(',', 3)`, `int(...)`, truthiness of `str`-or-`None` values) are
embedded as executable Lean functions over `List Char`; only the ASCII /
Latin-1 whitespace and line-break repertoire of Python is modeled, which
covers every character the program itself produces.
-/

namespace KeyBot

/-- Characters treated as whitespace by Python's `str.strip()` (the ASCII and
Latin-1 portion of the repertoire). -/
def pyIsSpace (c : Char) : Bool :=
  c == ' ' || c == '\t' || c == '\n' || c == '\r' || c == '\x0b' ||
  c == '\x0c' || c == '\x1c' || c == '\x1d' || c == '\x1e' ||
  c == '\x1f' || c == '\u0085' || c == '\u00a0'

/-- Characters at which Python's `str.splitlines()` breaks a line. -/
def pyIsLineBreak (c : Char) : Bool :=
  c == '\n' || c == '\r' || c == '\x0b' || c == '\x0c' || c == '\x1c' ||
  c == '\x1d' || c == '\x1e' || c == '\u0085' || c == '\u2028' || c == '\u2029'

/-- Python `str.strip()`: drop leading and trailing whitespace. -/
def pyStrip (cs : List Char) : List Char :=
  ((cs.dropWhile pyIsSpace).reverse.dropWhile pyIsSpace).reverse

/-- Worker for `pySplitlines`: `acc` holds the current line reversed.  A
line-break character as the final character closes the current line without
opening an empty one, and `\r\n` counts as a single break. -/
def pySplitlinesAux (acc : List Char) : List Char → List (List Char)
  | [] => [acc.reverse]
  | [c] => if pyIsLineBreak c then [acc.reverse] else [(c :: acc).reverse]
  | c :: c2 :: cs =>
    if c = '\r' && c2 = '\n' then
      if cs.isEmpty then [acc.reverse] else acc.reverse :: pySplitlinesAux [] cs
    else if pyIsLineBreak c then
      acc.reverse :: pySplitlinesAux [] (c2 :: cs)
    else
      pySplitlinesAux (c :: acc) (c2 :: cs)

/-- Python `str.splitlines()`: split at line-break characters, `\r\n` counting
as a single break, with no empty final line for a trailing break. -/
def pySplitlines (cs : List Char) : List (List Char) :=
  match cs with
  | [] => []
  | c :: rest => pySplitlinesAux [] (c :: rest)

/-- Split a character list at its first comma, if any. -/
def splitAtComma : List Char → Option (List Char × List Char)
  | [] => none
  | c :: cs =>
    if c = ',' then some ([], cs)
    else (splitAtComma cs).map (fun p => (c :: p.1, p.2))

/-- Python `str.split(',', maxsplit)`: split at commas, at most `maxsplit`
times; the remainder after the last split is kept whole. -/
def pySplitComma : Nat → List Char → List (List Char)
  | 0, cs => [cs]
  | n + 1, cs =>
    match splitAtComma cs with
    | none => [cs]
    | some p => p.1 :: pySplitComma n p.2

/-- Second half of the digit parser behind `pyIntChars`: consume the remaining
digits, allowing a single underscore between two digits as Python does. -/
def pyDigitsRest (v : Nat) : List Char → Option Nat
  | [] => some v
  | c :: cs =>
    if c = '_' then
      match cs with
      | [] => none
      | c2 :: cs2 =>
        if c2.isDigit then pyDigitsRest (v * 10 + (c2.toNat - 48)) cs2 else none
    else if c.isDigit then pyDigitsRest (v * 10 + (c.toNat - 48)) cs
    else none

/-- Parse a nonempty digit sequence (with Python's interior underscores). -/
def pyParseDigits : List Char → Option Nat
  | [] => none
  | c :: cs => if c.isDigit then pyDigitsRest (c.toNat - 48) cs else none

/-- Python `int(s)` on a base-10 string: surrounding whitespace, an optional
sign, then digits (only the ASCII repertoire is modeled). -/
def pyIntChars (cs : List Char) : Option Int :=
  match pyStrip cs with
  | [] => none
  | c :: rest =>
    if c = '-' then (pyParseDigits rest).map (fun n => -(n : Int))
    else if c = '+' then (pyParseDigits rest).map (fun n => (n : Int))
    else (pyParseDigits (c :: rest)).map (fun n => (n : Int))

/-- Python `int(s)` on a `String`. -/
def pyInt (s : String) : Option Int :=
  pyIntChars s.data

/-- Decimal digit character for `d < 10`. -/
def digitChar (d : Nat) : Char :=
  Char.ofNat (48 + d)

/-- Worker for `natDecimal`, accumulating digits from the low end; `fuel`
structurally bounds the recursion and any `fuel > n` computes the digits. -/
def natDecimalAux (fuel : Nat) (n : Nat) (acc : List Char) : List Char :=
  match fuel with
  | 0 => acc
  | fuel + 1 =>
    if n < 10 then digitChar n :: acc
    else natDecimalAux fuel (n / 10) (digitChar (n % 10) :: acc)

/-- Canonical decimal digits of a natural number (no sign, no padding). -/
def natDecimal (n : Nat) : List Char :=
  natDecimalAux (n + 1) n []

/-- Python `str(i)` for an `int`: canonical decimal notation with a leading
`-` for negative values. -/
def intDecimal (i : Int) : List Char :=
  if i < 0 then '-' :: natDecimal i.natAbs else natDecimal i.toNat

/-- One key record as held in memory by the bot: the dict
`\x7b'key', 'role_id', 'redeemed_by', 'redeemed_at'\x7d` built by
`fetch_entries`, with `None` modeled as `Option.none`. -/
structure Entry where
  key : String
  role_id : Int
  redeemed_by : Option String
  redeemed_at : Option String
deriving Repr, DecidableEq

/-- Python `s or None` for a string `s`: empty strings collapse to `None`. -/
def orNoneChars (cs : List Char) : Option String :=
  if cs.isEmpty then none else some ⟨cs⟩

/-- Python truthiness of a `str`-or-`None` value (`if e['redeemed_by']:`). -/
def pyTruthy : Option String → Bool
  | none => false
  | some s => !s.isEmpty

/-- The `parts = line.split(',', 3); while len(parts) < 4: parts.append('')`
step followed by the 4-way unpacking.  `pySplitComma 3` always returns
between one and four parts, so the final catch-all case is unreachable. -/
def split4 (l : List Char) : List Char × List Char × List Char × List Char :=
  match pySplitComma 3 l with
  | [a, b, c, d] => (a, b, c, d)
  | [a, b, c] => (a, b, c, [])
  | [a, b] => (a, b, [], [])
  | [a] => (a, [], [], [])
  | _ => ([], [], [], [])

/-- The body of `fetch_entries`' per-line loop: strip the line, skip it when
it is blank, starts with `#`, or its role field is not an integer, and
otherwise build the entry dict. -/
def parseLine (line : List Char) : Option Entry :=
  let l := pyStrip line
  if l.isEmpty then none
  else if l.head? = some '#' then none
  else
    match split4 l with
    | (k, rs, rb, ra) =>
      match pyIntChars rs with
      | none => none
      | some r =>
        some { key := ⟨k⟩, role_id := r,
               redeemed_by := orNoneChars rb, redeemed_at := orNoneChars ra }

/-- The `for line in lines` accumulation loop of `fetch_entries`, translated
with the source's inline skip conditions. -/
def fetchLoop : List (List Char) → List Entry
  | [] => []
  | line :: rest =>
    let l := pyStrip line
    if l.isEmpty then fetchLoop rest
    else if l.head? = some '#' then fetchLoop rest
    else
      match split4 l with
      | (k, rs, rb, ra) =>
        match pyIntChars rs with
        | none => fetchLoop rest
        | some r =>
          { key := ⟨k⟩, role_id := r,
            redeemed_by := orNoneChars rb, redeemed_at := orNoneChars ra } ::
            fetchLoop rest

/-- `fetch_entries` restricted to its pure content: parse the remote
`keys.txt` document into the entry list (the gist handle it also returns is
independent of the document's lines and is not modeled). -/
def fetchEntries (content : String) : List Entry :=
  fetchLoop (pySplitlines content.data)

/-- The serialized line `f"\x7bkey\x7d,\x7brole_id\x7d,\x7bredeemed_by or ''\x7d,\x7bredeemed_at or ''\x7d"`
written by `push_entries` for one entry. -/
def serializeEntry (e : Entry) : List Char :=
  e.key.data ++ ',' :: (intDecimal e.role_id ++
    ',' :: ((e.redeemed_by.getD "").data ++ ',' :: (e.redeemed_at.getD "").data))

/-- Python `"\n".join(lines)`. -/
def joinLines : List (List Char) → List Char
  | [] => []
  | [l] => l
  | l :: ls => l ++ '\n' :: joinLines ls

/-- `push_entries`: the full `keys.txt` content written back to the gist
(whole-document replace). -/
def pushContent (entries : List Entry) : String :=
  ⟨joinLines (entries.map serializeEntry)⟩

/-- The alphabet `string.ascii_uppercase + string.digits` used by
`generate_key`. -/
def keyAlphabet : List Char :=
  "ABCDEFGHIJKLMNOPQRSTUVWXYZ0123456789".data

/-- `generate_key`: the random draws of `secrets.choice` are an explicit
input, one alphabet index per generated symbol (the default key length is 12
draws). -/
def generate_key (draws : List (Fin 36)) : String :=
  ⟨draws.map (fun i => keyAlphabet.get (Fin.cast (by decide) i))⟩

/-- The store commit performed by `KeyGenView.generate_button` after a key
was generated: append the new unredeemed record to the fetched list and push
the whole list back.  No duplicate check of any kind is performed. -/
def issueCommit (k : String) (roleId : Int) (entries : List Entry) : List Entry :=
  entries ++ [{ key := k, role_id := roleId, redeemed_by := none, redeemed_at := none }]

/-- The distinct user-visible outcomes of the `/redeem` command handler, one
per `interaction.response.send_message` call site. -/
inductive RedeemResult where
  | success (roleId : Int)
  | alreadyRedeemed
  | roleNotFound
  | grantFailed
  | pushFailed
  | invalidKey
deriving Repr, DecidableEq

/-- Whether a redemption outcome is the success outcome. -/
def RedeemResult.isSuccess : RedeemResult → Bool
  | .success _ => true
  | _ => false

/-- The distinguishing user-facing message text of each outcome, as sent by
the handler (the leading status-symbol character of each source string is
mojibake in the source file and is omitted here; the texts differ pairwise
already without it). -/
def RedeemResult.userMessage : RedeemResult → String
  | .success _ => "Redeemed key and assigned role!"
  | .alreadyRedeemed => "Key already redeemed."
  | .roleNotFound => "Role not found on this server."
  | .grantFailed => "Failed to assign role; check bot permissions."
  | .pushFailed => "Role assigned, but failed to update redemption status: "
  | .invalidKey => "Invalid key."

/-- The `for e in entries` loop of the `/redeem` handler.  `roleExists`
models `interaction.guild.get_role`, `grantOk` the success of
`interaction.user.add_roles`, and `pushOk` the success of `push_entries`;
`ustr` is `str(interaction.user.id)` and `now` the
`datetime.utcnow().isoformat()` timestamp.  The second component is the
entry list pushed to the gist, or `none` when the handler returns without
pushing. -/
def redeemList (roleExists : Int → Bool) (grantOk pushOk : Bool)
    (k ustr now : String) : List Entry → RedeemResult × Option (List Entry)
  | [] => (.invalidKey, none)
  | e :: rest =>
    if e.key = k then
      if pyTruthy e.redeemed_by then (.alreadyRedeemed, none)
      else if roleExists e.role_id = false then (.roleNotFound, none)
      else if grantOk = false then (.grantFailed, none)
      else if pushOk = false then (.pushFailed, none)
      else (.success e.role_id,
            some ({ e with redeemed_by := some ustr, redeemed_at := some now } :: rest))
    else
      let p := redeemList roleExists grantOk pushOk k ustr now rest
      (p.1, p.2.map (fun es => e :: es))

/-- One `/redeem` call against a fetched snapshot: the outcome together with
the remote record set after the call (the snapshot itself whenever no push
happened, including the push-failure branch where the role was already
granted). -/
def redeem (roleExists : Int → Bool) (grantOk pushOk : Bool)
    (k ustr now : String) (entries : List Entry) : RedeemResult × List Entry :=
  let p := redeemList roleExists grantOk pushOk k ustr now entries
  (p.1, p.2.getD entries)

/-- Index of the first record whose key equals `k`. -/
def firstKeyIdx (k : String) : List Entry → Option Nat
  | [] => none
  | e :: rest =>
    if e.key = k then some 0 else (firstKeyIdx k rest).map (· + 1)

/-- The frame specification of redemption's effect on the record set,
written from the claim's words rather than from the handler's loop: when
every precondition holds, exactly the first record whose key matches is
replaced, with only its two redemption fields set; in every other case the
record set is left unchanged. -/
def redeemStateSpec (roleExists : Int → Bool) (grantOk pushOk : Bool)
    (k ustr now : String) (entries : List Entry) : List Entry :=
  match firstKeyIdx k entries with
  | none => entries
  | some i =>
    match entries[i]? with
    | none => entries
    | some e =>
      if pyTruthy e.redeemed_by then entries
      else if roleExists e.role_id = false then entries
      else if grantOk = false then entries
      else if pushOk = false then entries
      else entries.set i { e with redeemed_by := some ustr, redeemed_at := some now }

/-- Two `/redeem` calls for the same key racing on the event loop: both
handlers fetch the same remote snapshot before either pushes (the handlers
yield at their network awaits), then each computes on its own snapshot and
pushes in turn, the second whole-document replace overwriting the first.
Returns both outcomes and the final remote record set. -/
def twoClientRace (roleExists : Int → Bool) (k uA uB nowA nowB : String)
    (remote : List Entry) : RedeemResult × RedeemResult × List Entry :=
  let pA := redeemList roleExists true true k uA nowA remote
  let pB := redeemList roleExists true true k uB nowB remote
  let remote1 := pA.2.getD remote
  let remote2 := pB.2.getD remote1
  (pA.1, pB.1, remote2)

/-! Basic characterization of the `/redeem` loop. -/

theorem redeemList_no_match (roleExists : Int → Bool) (grantOk pushOk : Bool)
    (k ustr now : String) (entries : List Entry)
    (h : ∀ x ∈ entries, x.key ≠ k) :
    redeemList roleExists grantOk pushOk k ustr now entries = (.invalidKey, none) := by
  induction entries with
  | nil => rfl
  | cons e rest ih =>
    have he : e.key ≠ k := h e (by simp)
    simp only [redeemList, if_neg he, ih (fun x hx => h x (by simp [hx]))]
    rfl

theorem redeemList_first_match (roleExists : Int → Bool) (grantOk pushOk : Bool)
    (k ustr now : String) (pre : List Entry) (e : Entry) (post : List Entry)
    (hpre : ∀ x ∈ pre, x.key ≠ k) (he : e.key = k) :
    redeemList roleExists grantOk pushOk k ustr now (pre ++ e :: post) =
      (if pyTruthy e.redeemed_by then (.alreadyRedeemed, none)
       else if roleExists e.role_id = false then (.roleNotFound, none)
       else if grantOk = false then (.grantFailed, none)
       else if pushOk = false then (.pushFailed, none)
       else (.success e.role_id,
             some (pre ++ { e with redeemed_by := some ustr, redeemed_at := some now } :: post))) := by
  induction pre with
  | nil =>
    simp only [List.nil_append, redeemList, if_pos he]
  | cons a pre ih =>
    have ha : a.key ≠ k := hpre a (by simp)
    rw [List.cons_append]
    simp only [redeemList, if_neg ha, ih (fun x hx => hpre x (by simp [hx]))]
    split_ifs <;> simp

/-- Claim C1 (violated by the code): with the store holding one unredeemed
key `K`, two `/redeem` calls for `K` race on the event loop, both fetch the
snapshot before either pushes, and BOTH succeed (each user is granted the
role); the final remote state only records the second writer.  The claim
demands exactly one success and one `AlreadyRedeemed` failure. -/
theorem claim_C1_race_two_successes :
    twoClientRace (fun _ => true) "K" "42" "99" "t1" "t2"
        [{ key := "K", role_id := 5, redeemed_by := none, redeemed_at := none }] =
      (.success 5, .success 5,
       [{ key := "K", role_id := 5, redeemed_by := some "99", redeemed_at := some "t2" }]) := by
  decide

/-- Claim C5 (violated by the code): the handler attempts the role grant
BEFORE pushing the redemption.  When the grant fails the handler returns
with the store untouched (the key is still unredeemed, not "already recorded
as redeemed" as claimed), and when the push fails after a successful grant
the role is held without the store recording the redemption. -/
theorem claim_C5_grant_precedes_commit :
    redeem (fun _ => true) false true "K" "1" "t"
        [{ key := "K", role_id := 5, redeemed_by := none, redeemed_at := none }] =
      (.grantFailed,
       [{ key := "K", role_id := 5, redeemed_by := none, redeemed_at := none }]) ∧
    redeem (fun _ => true) true false "K" "1" "t"
        [{ key := "K", role_id := 5, redeemed_by := none, redeemed_at := none }] =
      (.pushFailed,
       [{ key := "K", role_id := 5, redeemed_by := none, redeemed_at := none }]) := by
  exact ⟨by decide, by decide⟩

/-- Claim C2 is false as stated: `generate_button` appends the generated key
with no duplicate check, so a sequence of two `IssueKey` operations whose
random draws coincide commits two records with equal `key` values, and no
`DuplicateKey` failure exists anywhere in the flow. -/
theorem claim_C2_counterexample :
    (issueCommit (generate_key (List.replicate 12 (0 : Fin 36))) 1
        (issueCommit (generate_key (List.replicate 12 (0 : Fin 36))) 1 [])).map Entry.key =
      ["AAAAAAAAAAAA", "AAAAAAAAAAAA"] ∧
    ¬ (["AAAAAAAAAAAA", "AAAAAAAAAAAA"] : List String).Nodup := by
  exact ⟨by decide, by decide⟩

/-- Claim C2 (amended): `IssueKey` performs no duplicate check and never
fails with `DuplicateKey`; the committed keys are pairwise distinct after an
issuance exactly when they were before and the freshly generated key does
not already occur in the store. -/
theorem claim_C2_issue_unique_iff_fresh (k : String) (r : Int) (entries : List Entry) :
    ((issueCommit k r entries).map Entry.key).Nodup ↔
      ((entries.map Entry.key).Nodup ∧ k ∉ entries.map Entry.key) := by
  simp [issueCommit, List.nodup_append, and_comm]

/-- Witness for `claim_C2_issue_unique_iff_fresh` at a concrete store. -/
theorem claim_C2_issue_unique_iff_fresh_witness :
    ((issueCommit "B" 2 [⟨"A", 1, none, none⟩]).map Entry.key).Nodup ↔
      ((([⟨"A", 1, none, none⟩] : List Entry).map Entry.key).Nodup ∧
        "B" ∉ ([⟨"A", 1, none, none⟩] : List Entry).map Entry.key) :=
  claim_C2_issue_unique_iff_fresh "B" 2 [⟨"A", 1, none, none⟩]

/-- The decimal digits of a natural number are never the empty list (so the
stored `str(user.id)` is always truthy). -/
theorem natDecimalAux_eq_append (fuel n : Nat) :
    ∀ acc, natDecimalAux fuel n acc = natDecimalAux fuel n [] ++ acc := by
  induction fuel generalizing n with
  | zero => intro acc; simp [natDecimalAux]
  | succ fuel ih =>
    intro acc
    by_cases h : n < 10
    · simp [natDecimalAux, h]
    · simp only [natDecimalAux, if_neg h]
      rw [ih (n / 10) (digitChar (n % 10) :: acc), ih (n / 10) [digitChar (n % 10)]]
      simp

theorem natDecimal_ne_nil (n : Nat) : natDecimal n ≠ [] := by
  unfold natDecimal natDecimalAux
  by_cases h : n < 10
  · simp [h]
  · simp only [if_neg h]
    rw [natDecimalAux_eq_append]
    simp

/-- Claim C6: a `/redeem` of a key not in the store answers with the
key-not-found outcome and leaves the store untouched; a `/redeem` of a key
whose (first) record is already redeemed answers with the already-redeemed
outcome and leaves the store untouched; and the two outcomes, and their
user-facing message texts, are distinct. -/
theorem claim_C6_distinct_outcomes
    (roleExistsA roleExistsB : Int → Bool) (grantOkA grantOkB pushOkA pushOkB : Bool)
    (k ustrA ustrB nowA nowB : String) (entries pre post : List Entry) (e : Entry)
    (hmiss : k ∉ entries.map Entry.key)
    (hpre : ∀ x ∈ pre, x.key ≠ k) (he : e.key = k)
    (hred : pyTruthy e.redeemed_by = true) :
    redeem roleExistsA grantOkA pushOkA k ustrA nowA entries = (.invalidKey, entries) ∧
    redeem roleExistsB grantOkB pushOkB k ustrB nowB (pre ++ e :: post) =
      (.alreadyRedeemed, pre ++ e :: post) ∧
    RedeemResult.invalidKey ≠ RedeemResult.alreadyRedeemed ∧
    RedeemResult.userMessage .invalidKey ≠ RedeemResult.userMessage .alreadyRedeemed := by
  refine ⟨?_, ?_, by decide, by decide⟩
  · have h : ∀ x ∈ entries, x.key ≠ k := by
      intro x hx hk
      exact hmiss (hk ▸ List.mem_map_of_mem Entry.key hx)
    rw [redeem, redeemList_no_match roleExistsA grantOkA pushOkA k ustrA nowA entries h]
    rfl
  · rw [redeem,
      redeemList_first_match roleExistsB grantOkB pushOkB k ustrB nowB pre e post hpre he,
      if_pos hred]
    rfl

/-- Witness for `claim_C6_distinct_outcomes`: an empty store misses the key,
and a store holding the key redeemed reports it as already redeemed. -/
theorem claim_C6_distinct_outcomes_witness :
    redeem (fun _ => true) true true "K" "1" "t" [] = (.invalidKey, []) ∧
    redeem (fun _ => true) true true "K" "2" "t"
        ([] ++ (⟨"K", 5, some "42", some "t0"⟩ : Entry) :: []) =
      (.alreadyRedeemed, [] ++ (⟨"K", 5, some "42", some "t0"⟩ : Entry) :: []) ∧
    RedeemResult.invalidKey ≠ RedeemResult.alreadyRedeemed ∧
    RedeemResult.userMessage .invalidKey ≠ RedeemResult.userMessage .alreadyRedeemed :=
  claim_C6_distinct_outcomes (fun _ => true) (fun _ => true) true true true true
    "K" "1" "2" "t" "t" [] [] [] ⟨"K", 5, some "42", some "t0"⟩
    (by decide) (by decide) rfl (by decide)

/-- Claim C4: if the (key-unique) store contains an unredeemed record with
key `k`, then a `/redeem` of `k` by user `u` in a cooperating environment
(the role exists, the grant and the push succeed) returns that record's
role and pushes the record with `redeemed_by = str(u)` and
`redeemed_at = now`; any subsequent `/redeem` of `k`, by any user in any
environment, answers already-redeemed and changes nothing. -/
theorem claim_C4_redeem_postcondition
    (roleExistsA roleExistsB : Int → Bool) (grantOkB pushOkB : Bool)
    (u uB : Nat) (nowA nowB k : String) (pre post : List Entry) (e : Entry)
    (hnd : ((pre ++ e :: post).map Entry.key).Nodup)
    (he : e.key = k) (hunred : e.redeemed_by = none)
    (hrole : roleExistsA e.role_id = true) :
    redeem roleExistsA true true k ⟨natDecimal u⟩ nowA (pre ++ e :: post) =
      (.success e.role_id,
       pre ++ { e with redeemed_by := some ⟨natDecimal u⟩, redeemed_at := some nowA } :: post) ∧
    redeem roleExistsB grantOkB pushOkB k ⟨natDecimal uB⟩ nowB
        (pre ++ { e with redeemed_by := some ⟨natDecimal u⟩, redeemed_at := some nowA } :: post) =
      (.alreadyRedeemed,
       pre ++ { e with redeemed_by := some ⟨natDecimal u⟩, redeemed_at := some nowA } :: post) := by
  have hpre : ∀ x ∈ pre, x.key ≠ k := by
    intro x hx hk
    rw [List.map_append, List.nodup_append] at hnd
    exact hnd.2.2 (List.mem_map_of_mem Entry.key hx) (by simp [hk, he])
  constructor
  · rw [redeem,
      redeemList_first_match roleExistsA true true k ⟨natDecimal u⟩ nowA pre e post hpre he]
    simp [pyTruthy, hunred, hrole]
  · rw [redeem,
      redeemList_first_match roleExistsB grantOkB pushOkB k ⟨natDecimal uB⟩ nowB pre
        { e with redeemed_by := some ⟨natDecimal u⟩, redeemed_at := some nowA } post hpre he]
    have htr : pyTruthy (some (⟨natDecimal u⟩ : String)) = true := by
      simp only [pyTruthy, Bool.not_eq_true']
      by_contra h
      simp only [Bool.not_eq_false, String.isEmpty_iff] at h
      exact natDecimal_ne_nil u (congrArg String.data h)
    rw [if_pos htr]
    rfl

/-- Witness for `claim_C4_redeem_postcondition`: the spec's own scenario,
`Insert(key="ABC123XYZ789", role=555)`, `Redeem` by user 42, then by 99. -/
theorem claim_C4_redeem_postcondition_witness :
    redeem (fun _ => true) true true "ABC123XYZ789" ⟨natDecimal 42⟩ "t1"
        ([] ++ ⟨"ABC123XYZ789", 555, none, none⟩ :: []) =
      (.success 555,
       [] ++ (⟨"ABC123XYZ789", 555, some ⟨natDecimal 42⟩, some "t1"⟩ : Entry) :: []) ∧
    redeem (fun _ => false) false false "ABC123XYZ789" ⟨natDecimal 99⟩ "t2"
        ([] ++ (⟨"ABC123XYZ789", 555, some ⟨natDecimal 42⟩, some "t1"⟩ : Entry) :: []) =
      (.alreadyRedeemed,
       [] ++ (⟨"ABC123XYZ789", 555, some ⟨natDecimal 42⟩, some "t1"⟩ : Entry) :: []) :=
  claim_C4_redeem_postcondition (fun _ => true) (fun _ => false) false false
    42 99 "t1" "t2" "ABC123XYZ789" [] [] ⟨"ABC123XYZ789", 555, none, none⟩
    (by decide) rfl rfl rfl

/-- Claim C10: refinement of the handler's state effect against the frame
specification written from the claim — only the first record whose key
matches is replaced, only its two redemption fields are set, every other
record survives unchanged, and every non-success branch (key not found,
already redeemed, role missing, grant failure, push failure) leaves the
record set exactly as fetched. -/
theorem redeemStateSpec_cons_ne (roleExists : Int → Bool) (grantOk pushOk : Bool)
    (k ustr now : String) (e : Entry) (rest : List Entry) (he : e.key ≠ k) :
    redeemStateSpec roleExists grantOk pushOk k ustr now (e :: rest) =
      e :: redeemStateSpec roleExists grantOk pushOk k ustr now rest := by
  rw [redeemStateSpec, redeemStateSpec, firstKeyIdx, if_neg he]
  cases hfi : firstKeyIdx k rest with
  | none => rfl
  | some i =>
    simp only [Option.map_some', List.getElem?_cons_succ]
    cases rest[i]? with
    | none => rfl
    | some e2 => simp only [List.set_cons_succ]; split_ifs <;> rfl

theorem redeemList_state_of_not_success (roleExists : Int → Bool)
    (grantOk pushOk : Bool) (k ustr now : String) (entries : List Entry)
    (h : (redeemList roleExists grantOk pushOk k ustr now entries).1.isSuccess = false) :
    (redeemList roleExists grantOk pushOk k ustr now entries).2 = none := by
  induction entries with
  | nil => rfl
  | cons e rest ih =>
    by_cases he : e.key = k
    · simp only [redeemList, if_pos he] at h ⊢
      split_ifs with h1 h2 h3 h4 <;> first | rfl | (rw [if_neg h1, if_neg h2, if_neg h3, if_neg h4] at h; exact absurd h (by simp [RedeemResult.isSuccess]))
    · simp only [redeemList, if_neg he] at h ⊢
      rw [ih h]
      rfl

theorem redeemList_state_getD (roleExists : Int → Bool) (grantOk pushOk : Bool)
    (k ustr now : String) (entries : List Entry) :
    ((redeemList roleExists grantOk pushOk k ustr now entries).2).getD entries =
      redeemStateSpec roleExists grantOk pushOk k ustr now entries := by
  induction entries with
  | nil => rfl
  | cons e rest ih =>
    by_cases he : e.key = k
    · simp only [redeemList, if_pos he, redeemStateSpec, firstKeyIdx, if_pos he,
        List.getElem?_cons_zero]
      split_ifs <;> rfl
    · rw [redeemStateSpec_cons_ne roleExists grantOk pushOk k ustr now e rest he, ← ih]
      simp only [redeemList, if_neg he]
      cases (redeemList roleExists grantOk pushOk k ustr now rest).2 <;> rfl

/-- Claim C10: refinement of the handler's state effect against the frame
specification written from the claim — only the first record whose key
matches is replaced, only its two redemption fields are set, every other
record survives unchanged, and every non-success branch (key not found,
already redeemed, role missing, grant failure, push failure) leaves the
record set exactly as fetched. -/
theorem claim_C10_redeem_frame
    (roleExists : Int → Bool) (grantOk pushOk : Bool) (k ustr now : String)
    (entries : List Entry) :
    (redeem roleExists grantOk pushOk k ustr now entries).2 =
      redeemStateSpec roleExists grantOk pushOk k ustr now entries ∧
    ((redeem roleExists grantOk pushOk k ustr now entries).1.isSuccess = false →
      (redeem roleExists grantOk pushOk k ustr now entries).2 = entries) := by
  constructor
  · exact redeemList_state_getD roleExists grantOk pushOk k ustr now entries
  · intro h
    have hn := redeemList_state_of_not_success roleExists grantOk pushOk k ustr now entries h
    show ((redeemList roleExists grantOk pushOk k ustr now entries).2).getD entries = entries
    rw [hn]
    rfl

/-- Witness for `claim_C10_redeem_frame` at a concrete store with a comment
record before and a same-key record after the redeemed one. -/
theorem claim_C10_redeem_frame_witness :
    (redeem (fun _ => true) true true "K" "42" "t"
        [⟨"A", 1, none, none⟩, ⟨"K", 5, none, none⟩, ⟨"K", 7, none, none⟩]).2 =
      redeemStateSpec (fun _ => true) true true "K" "42" "t"
        [⟨"A", 1, none, none⟩, ⟨"K", 5, none, none⟩, ⟨"K", 7, none, none⟩] ∧
    ((redeem (fun _ => true) true true "K" "42" "t"
        [⟨"A", 1, none, none⟩, ⟨"K", 5, none, none⟩, ⟨"K", 7, none, none⟩]).1.isSuccess = false →
      (redeem (fun _ => true) true true "K" "42" "t"
        [⟨"A", 1, none, none⟩, ⟨"K", 5, none, none⟩, ⟨"K", 7, none, none⟩]).2 =
      [⟨"A", 1, none, none⟩, ⟨"K", 5, none, none⟩, ⟨"K", 7, none, none⟩]) :=
  claim_C10_redeem_frame (fun _ => true) true true "K" "42" "t"
    [⟨"A", 1, none, none⟩, ⟨"K", 5, none, none⟩, ⟨"K", 7, none, none⟩]

/-- Claim C7 is false for records reachable by parsing: `fetch_entries`
validates the two redemption fields independently, so the remote line
`K,5,u` (a redeemer with no timestamp) parses to a record with
`redeemed_by` present and `redeemed_at` absent. -/
theorem claim_C7_counterexample :
    (fetchEntries "K,5,u").map
        (fun e => (e.redeemed_by.isSome, e.redeemed_at.isSome)) = [(true, false)] := by
  decide

/-- Claim C7 (amended): the operations that WRITE records maintain the
invariant — issuance creates records with both redemption fields absent,
redemption sets both fields together on the first matching unredeemed
record, and an already-redeemed record is never touched again (no record is
un-redeemed) — but records merely read by parsing are not validated against
it (see the counterexample). -/
theorem claim_C7_redemption_fields
    (roleExists : Int → Bool) (grantOk pushOk : Bool) (k ustr now kI : String)
    (rI : Int) (entries : List Entry) (i : Nat) (eR eP eI : Entry)
    (hinv : ∀ x ∈ entries, x.redeemed_by.isSome = x.redeemed_at.isSome) :
    (eI ∈ issueCommit kI rI entries → eI.redeemed_by.isSome = eI.redeemed_at.isSome) ∧
    (eP ∈ (redeem roleExists grantOk pushOk k ustr now entries).2 →
      eP.redeemed_by.isSome = eP.redeemed_at.isSome) ∧
    (entries[i]? = some eR → pyTruthy eR.redeemed_by = true →
      ((redeem roleExists grantOk pushOk k ustr now entries).2)[i]? = some eR) := by
  refine ⟨?_, ?_, ?_⟩
  · intro hm
    rcases List.mem_append.1 hm with h | h
    · exact hinv eI h
    · simp only [List.mem_singleton] at h
      subst h
      rfl
  · intro hm
    have hst := redeemList_state_getD roleExists grantOk pushOk k ustr now entries
    rw [show (redeem roleExists grantOk pushOk k ustr now entries).2 =
          ((redeemList roleExists grantOk pushOk k ustr now entries).2).getD entries from rfl,
        hst] at hm
    rw [redeemStateSpec] at hm
    rcases hfi : firstKeyIdx k entries with _ | j <;> simp only [hfi] at hm
    · exact hinv eP hm
    · rcases hg : entries[j]? with _ | e0 <;> simp only [hg] at hm
      · exact hinv eP hm
      · split_ifs at hm with h1 h2 h3 h4
        · exact hinv eP hm
        · exact hinv eP hm
        · exact hinv eP hm
        · exact hinv eP hm
        · rcases List.mem_or_eq_of_mem_set hm with h | h
          · exact hinv eP h
          · subst h
            rfl
  · intro hget htr
    have hst := redeemList_state_getD roleExists grantOk pushOk k ustr now entries
    rw [show (redeem roleExists grantOk pushOk k ustr now entries).2 =
          ((redeemList roleExists grantOk pushOk k ustr now entries).2).getD entries from rfl,
        hst, redeemStateSpec]
    rcases hfi : firstKeyIdx k entries with _ | j <;> simp only [hfi]
    · exact hget
    · rcases hg : entries[j]? with _ | e0 <;> simp only [hg]
      · exact hget
      · split_ifs with h1 h2 h3 h4
        · exact hget
        · exact hget
        · exact hget
        · exact hget
        · have hij : i ≠ j := by
            intro h
            subst h
            rw [hget] at hg
            cases hg
            rw [htr] at h1
            exact absurd rfl h1
          rw [List.getElem?_set_ne (by omega)]
          exact hget

/-- Witness for `claim_C7_redemption_fields`: a store with one redeemed and
one unredeemed record; the unredeemed one is redeemed by user 42, the
redeemed one at index 0 is untouched. -/
theorem claim_C7_redemption_fields_witness :
    ((⟨"K", 5, some "42", some "t"⟩ : Entry) ∈ issueCommit "N" 7
        [⟨"A", 1, some "9", some "t9"⟩, ⟨"K", 5, none, none⟩] →
      ((⟨"K", 5, some "42", some "t"⟩ : Entry)).redeemed_by.isSome =
        ((⟨"K", 5, some "42", some "t"⟩ : Entry)).redeemed_at.isSome) ∧
    ((⟨"K", 5, some "42", some "t"⟩ : Entry) ∈
        (redeem (fun _ => true) true true "K" "42" "t"
          [⟨"A", 1, some "9", some "t9"⟩, ⟨"K", 5, none, none⟩]).2 →
      ((⟨"K", 5, some "42", some "t"⟩ : Entry)).redeemed_by.isSome =
        ((⟨"K", 5, some "42", some "t"⟩ : Entry)).redeemed_at.isSome) ∧
    (([⟨"A", 1, some "9", some "t9"⟩, ⟨"K", 5, none, none⟩] :
        List Entry)[0]? = some ⟨"A", 1, some "9", some "t9"⟩ →
      pyTruthy (⟨"A", 1, some "9", some "t9"⟩ : Entry).redeemed_by = true →
      ((redeem (fun _ => true) true true "K" "42" "t"
          [⟨"A", 1, some "9", some "t9"⟩, ⟨"K", 5, none, none⟩]).2)[0]? =
        some ⟨"A", 1, some "9", some "t9"⟩) :=
  claim_C7_redemption_fields (fun _ => true) true true "K" "42" "t" "N" 7
    [⟨"A", 1, some "9", some "t9"⟩, ⟨"K", 5, none, none⟩] 0
    ⟨"A", 1, some "9", some "t9"⟩ ⟨"K", 5, some "42", some "t"⟩
    ⟨"K", 5, some "42", some "t"⟩ (by decide)

/-- The number of lines of a document that the `fetch_entries` loop skips
(blank after stripping, comment, or non-integer role field). -/
def skippedLineCount (content : String) : Nat :=
  ((pySplitlines content.data).filter (fun l => (parseLine l).isNone)).length

/-- The `fetch_entries` loop returns exactly the per-line parses of the
document's lines, in order. -/
theorem fetchLoop_eq_filterMap (lines : List (List Char)) :
    fetchLoop lines = lines.filterMap parseLine := by
  induction lines with
  | nil => rfl
  | cons line rest ih =>
    rw [fetchLoop, List.filterMap_cons]
    by_cases h1 : (pyStrip line).isEmpty
    · simp only [parseLine, h1, if_true, if_pos]
      exact ih
    · by_cases h2 : (pyStrip line).head? = some '#'
      · simp only [parseLine, h1, h2, if_false, if_true, if_neg, if_pos]
        exact ih
      · rcases hs : split4 (pyStrip line) with ⟨k4, rs, rb, ra⟩
        rcases hr : pyIntChars rs with _ | r <;>
          simp only [parseLine, h1, h2, hs, hr, if_false, if_neg, ih] <;> rfl

/-- Claim C8 is false in its record-keeping part: the source's
`except: continue` skips a malformed line without logging or counting it,
so nothing in `fetch_entries`' result records how many lines were skipped —
two documents with different numbers of malformed lines are
indistinguishable in the result. -/
theorem claim_C8_counterexample :
    fetchEntries "K,x\nK,5" = fetchEntries "K,x\nK,y\nK,5" ∧
    skippedLineCount "K,x\nK,5" ≠ skippedLineCount "K,x\nK,y\nK,5" := by
  exact ⟨by decide, by decide⟩

/-- Claim C8 (amended): parsing the remote document never fails as a whole —
it is exactly the in-order per-line parse of the document, a line is skipped
precisely when it is blank, a comment, or its role field is not an integer
(silently: no count of skipped lines is recorded, see the counterexample),
and every well-formed line contributes its record to the result. -/
theorem claim_C8_malformed_line_tolerance
    (content : String) (line : List Char) (e : Entry) :
    fetchEntries content = (pySplitlines content.data).filterMap parseLine ∧
    ((parseLine line).isNone = true ↔
      ((pyStrip line).isEmpty = true ∨ (pyStrip line).head? = some '#' ∨
        pyIntChars (split4 (pyStrip line)).2.1 = none)) ∧
    (line ∈ pySplitlines content.data → parseLine line = some e →
      e ∈ fetchEntries content) := by
  refine ⟨fetchLoop_eq_filterMap (pySplitlines content.data), ?_, ?_⟩
  · by_cases h1 : (pyStrip line).isEmpty
    · simp [parseLine, h1]
    · by_cases h2 : (pyStrip line).head? = some '#'
      · simp [parseLine, h1, h2]
      · rcases hs : split4 (pyStrip line) with ⟨k4, rs, rb, ra⟩
        rcases hr : pyIntChars rs with _ | r <;>
          simp [parseLine, h1, h2, hs, hr]
  · intro hm hp
    rw [fetchEntries, fetchLoop_eq_filterMap (pySplitlines content.data)]
    exact List.mem_filterMap.2 ⟨line, hm, hp⟩

/-- Witness for `claim_C8_malformed_line_tolerance` on a document with one
malformed, one comment and one well-formed line. -/
theorem claim_C8_malformed_line_tolerance_witness :
    fetchEntries "K,x\n# c\nA,7,," =
      (pySplitlines ("K,x\n# c\nA,7,," : String).data).filterMap parseLine ∧
    ((parseLine ("A,7,," : String).data).isNone = true ↔
      ((pyStrip ("A,7,," : String).data).isEmpty = true ∨
        (pyStrip ("A,7,," : String).data).head? = some '#' ∨
        pyIntChars (split4 (pyStrip ("A,7,," : String).data)).2.1 = none)) ∧
    (("A,7,," : String).data ∈ pySplitlines ("K,x\n# c\nA,7,," : String).data →
      parseLine ("A,7,," : String).data = some ⟨"A", 7, none, none⟩ →
      (⟨"A", 7, none, none⟩ : Entry) ∈ fetchEntries "K,x\n# c\nA,7,,") :=
  claim_C8_malformed_line_tolerance "K,x\n# c\nA,7,," ("A,7,," : String).data
    ⟨"A", 7, none, none⟩

/-! Correctness of the decimal serialization against the Python `int`
parser: `int(str(i)) == i`. -/

theorem digitChar_isDigit (d : Nat) (hd : d < 10) : (digitChar d).isDigit = true := by
  interval_cases d <;> decide

theorem digitChar_toNat (d : Nat) (hd : d < 10) : (digitChar d).toNat = 48 + d := by
  interval_cases d <;> decide

theorem pyIsSpace_eq_false_of_isDigit (c : Char) (h : c.isDigit = true) :
    pyIsSpace c = false := by
  by_contra hs
  rw [Bool.not_eq_false] at hs
  simp only [pyIsSpace, Bool.or_eq_true, beq_iff_eq] at hs
  rcases hs with ((((((((((h1 | h1) | h1) | h1) | h1) | h1) | h1) | h1) | h1) | h1) | h1) | h1 <;>
    subst h1 <;> exact absurd h (by decide)

theorem pyIsLineBreak_eq_false_of_isDigit (c : Char) (h : c.isDigit = true) :
    pyIsLineBreak c = false := by
  by_contra hs
  rw [Bool.not_eq_false] at hs
  simp only [pyIsLineBreak, Bool.or_eq_true, beq_iff_eq] at hs
  rcases hs with ((((((((h1 | h1) | h1) | h1) | h1) | h1) | h1) | h1) | h1) | h1 <;>
    subst h1 <;> exact absurd h (by decide)

theorem ne_of_all_digit (x : Char) (hx : x.isDigit = false) (ds : List Char)
    (hd : ∀ c ∈ ds, c.isDigit = true) : x ∉ ds := by
  intro hmem
  rw [hd x hmem] at hx
  cases hx

/-- Enough fuel computes the same digits, whatever the exact amount. -/
theorem natDecimalAux_fuel_inv (n : Nat) :
    ∀ fuel fuel' acc, n < fuel → n < fuel' →
      natDecimalAux fuel n acc = natDecimalAux fuel' n acc := by
  induction n using Nat.strong_induction_on with
  | _ n ih =>
    intro fuel fuel' acc hf hf'
    match fuel, fuel' with
    | fuel + 1, fuel' + 1 =>
      by_cases h : n < 10
      · simp [natDecimalAux, h]
      · simp only [natDecimalAux, if_neg h]
        exact ih (n / 10) (by omega) fuel fuel' _ (by omega) (by omega)

theorem natDecimal_digits (n : Nat) : ∀ c ∈ natDecimal n, c.isDigit = true := by
  have main : ∀ fuel n acc, (∀ c ∈ acc, c.isDigit = true) →
      ∀ c ∈ natDecimalAux fuel n acc, c.isDigit = true := by
    intro fuel
    induction fuel with
    | zero => intro n acc hacc; exact hacc
    | succ fuel ih =>
      intro n acc hacc c hc
      rw [natDecimalAux] at hc
      by_cases h : n < 10
      · rw [if_pos h] at hc
        rcases List.mem_cons.1 hc with h1 | h1
        · subst h1; exact digitChar_isDigit n h
        · exact hacc c h1
      · rw [if_neg h] at hc
        refine ih (n / 10) _ ?_ c hc
        intro x hx
        rcases List.mem_cons.1 hx with h1 | h1
        · subst h1; exact digitChar_isDigit (n % 10) (Nat.mod_lt n (by omega))
        · exact hacc x h1
  exact main (n + 1) n [] (by intro c hc; cases hc)

/-- The value read back from a digit list by the parser's accumulator. -/
def digitsVal (v : Nat) (ds : List Char) : Nat :=
  ds.foldl (fun a c => a * 10 + (c.toNat - 48)) v

theorem pyDigitsRest_all_digits (ds : List Char) :
    ∀ v, (∀ c ∈ ds, c.isDigit = true) → pyDigitsRest v ds = some (digitsVal v ds) := by
  induction ds with
  | nil => intro v _; rfl
  | cons c cs ih =>
    intro v hd
    have hc : c.isDigit = true := hd c (by simp)
    have hcu : ¬(c = '_') := by
      intro h; subst h; exact absurd hc (by decide)
    rw [pyDigitsRest.eq_def]
    simp only [if_neg hcu, if_pos hc]
    rw [digitsVal, List.foldl_cons]
    exact ih _ (fun x hx => hd x (by simp [hx]))

theorem pyParseDigits_all_digits (ds : List Char) (hne : ds ≠ [])
    (hd : ∀ c ∈ ds, c.isDigit = true) :
    pyParseDigits ds = some (digitsVal 0 ds) := by
  match ds with
  | c :: cs =>
    have hc : c.isDigit = true := hd c (by simp)
    rw [pyParseDigits, if_pos hc, digitsVal, List.foldl_cons]
    simpa using pyDigitsRest_all_digits cs (c.toNat - 48) (fun x hx => hd x (by simp [hx]))

theorem digitsVal_natDecimal (n : Nat) :
    ∀ v, digitsVal v (natDecimal n) = v * 10 ^ (natDecimal n).length + n := by
  induction n using Nat.strong_induction_on with
  | _ n ih =>
    intro v
    by_cases h : n < 10
    · rw [natDecimal, natDecimalAux, if_pos h]
      simp [digitsVal, digitChar_toNat n h]
    · have hrw : natDecimal n = natDecimal (n / 10) ++ [digitChar (n % 10)] := by
        rw [natDecimal, natDecimalAux, if_neg h, natDecimalAux_eq_append,
          natDecimalAux_fuel_inv (n / 10) n (n / 10 + 1) [] (by omega) (by omega)]
        rfl
      rw [hrw, digitsVal, List.foldl_append, List.foldl_cons, List.foldl_nil,
        List.length_append]
      have hv := ih (n / 10) (by omega) v
      rw [digitsVal] at hv
      rw [hv, digitChar_toNat (n % 10) (Nat.mod_lt n (by omega))]
      have hmod : 48 + n % 10 - 48 = n % 10 := by omega
      rw [hmod, List.length_singleton, pow_succ]
      have hdm := Nat.div_add_mod n 10
      ring_nf
      omega

theorem mem_of_getLast?_some {l : List Char} {c : Char} (h : l.getLast? = some c) :
    c ∈ l := by
  obtain ⟨hne, hc⟩ := List.mem_getLast?_eq_getLast h
  rw [hc]
  exact List.getLast_mem hne

theorem pyStrip_eq_self (cs : List Char)
    (h1 : ∀ c, cs.head? = some c → pyIsSpace c = false)
    (h2 : ∀ c, cs.getLast? = some c → pyIsSpace c = false) :
    pyStrip cs = cs := by
  rw [pyStrip]
  have hd1 : cs.dropWhile pyIsSpace = cs := by
    cases cs with
    | nil => rfl
    | cons a l =>
      rw [List.dropWhile_cons, if_neg]
      rw [h1 a rfl]
      simp
  rw [hd1]
  have hd2 : cs.reverse.dropWhile pyIsSpace = cs.reverse := by
    cases hrev : cs.reverse with
    | nil => rfl
    | cons a l =>
      rw [List.dropWhile_cons, if_neg]
      have : cs.getLast? = some a := by
        rw [← List.head?_reverse, hrev]
        rfl
      rw [h2 a this]
      simp
  rw [hd2, List.reverse_reverse]

theorem pyIntChars_natDecimal (n : Nat) :
    pyIntChars (natDecimal n) = some (n : Int) := by
  obtain ⟨c, cs, hnd⟩ : ∃ c cs, natDecimal n = c :: cs := by
    cases h : natDecimal n with
    | nil => exact absurd h (natDecimal_ne_nil n)
    | cons c cs => exact ⟨c, cs, rfl⟩
  have hdig := natDecimal_digits n
  have hstrip : pyStrip (natDecimal n) = c :: cs := by
    rw [← hnd]
    refine pyStrip_eq_self _ ?_ ?_
    · exact fun x hx =>
        pyIsSpace_eq_false_of_isDigit x (hdig x (List.mem_of_mem_head? hx))
    · exact fun x hx =>
        pyIsSpace_eq_false_of_isDigit x (hdig x (mem_of_getLast?_some hx))
  have hc : c.isDigit = true := hdig c (by rw [hnd]; exact List.mem_cons_self c cs)
  have hcm : ¬(c = '-') := by intro h; subst h; exact absurd hc (by decide)
  have hcp : ¬(c = '+') := by intro h; subst h; exact absurd hc (by decide)
  have hall : ∀ x ∈ c :: cs, x.isDigit = true := by rw [← hnd]; exact hdig
  have hval := digitsVal_natDecimal n 0
  rw [hnd] at hval
  simp only [Nat.zero_mul, Nat.zero_add] at hval
  simp only [pyIntChars, hstrip, if_neg hcm, if_neg hcp,
    pyParseDigits_all_digits (c :: cs) (by simp) hall, hval, Option.map_some']
  rfl

theorem pyIntChars_intDecimal (i : Int) :
    pyIntChars (intDecimal i) = some i := by
  by_cases hneg : i < 0
  · rw [intDecimal, if_pos hneg]
    have hdig := natDecimal_digits i.natAbs
    have hstrip : pyStrip ('-' :: natDecimal i.natAbs) = '-' :: natDecimal i.natAbs := by
      refine pyStrip_eq_self _ ?_ ?_
      · intro c hc
        rw [List.head?_cons, Option.some_inj] at hc
        subst hc
        decide
      · intro c hc
        have hlast : ('-' :: natDecimal i.natAbs).getLast? = (natDecimal i.natAbs).getLast? :=
          List.getLast?_append_of_ne_nil ['-'] (natDecimal_ne_nil i.natAbs)
        rw [hlast] at hc
        exact pyIsSpace_eq_false_of_isDigit c (hdig c (mem_of_getLast?_some hc))
    have hval := digitsVal_natDecimal i.natAbs 0
    simp only [Nat.zero_mul, Nat.zero_add] at hval
    have habs : (-(i.natAbs : Int)) = i := by omega
    simp only [pyIntChars, hstrip,
      pyParseDigits_all_digits _ (natDecimal_ne_nil i.natAbs) hdig, hval]
    simp [habs]
    rw [abs_of_neg hneg, neg_neg]
  · rw [intDecimal, if_neg hneg, pyIntChars_natDecimal]
    congr 1
    omega

/-! Round-trip of `push_entries` followed by `fetch_entries` (claim C9). -/

/-- Field content that survives the wire format: no commas (the separator)
and no line-break characters. -/
def goodFieldChars (cs : List Char) : Bool :=
  cs.all (fun c => !(c == ',') && !pyIsLineBreak c)

/-- An optional field that survives the wire format: absent, or present,
nonempty and clean (`push_entries` writes `''` for an absent field and
`fetch_entries` reads `''` back as absent, so a present-but-empty field
cannot survive). -/
def goodOptField : Option String → Bool
  | none => true
  | some s => !s.data.isEmpty && goodFieldChars s.data

/-- A record that round-trips through the wire format: nonempty key that
does not start with `#` or whitespace, clean fields, present optional
fields nonempty, and no trailing whitespace at the end of the line. -/
def goodEntry (e : Entry) : Bool :=
  !e.key.data.isEmpty &&
  !(e.key.data.head? == some '#') &&
  !(e.key.data.head?.elim false pyIsSpace) &&
  goodFieldChars e.key.data &&
  goodOptField e.redeemed_by &&
  goodOptField e.redeemed_at &&
  !((e.redeemed_at.getD "").data.getLast?.elim false pyIsSpace)

theorem splitAtComma_append (a b : List Char) (ha : ',' ∉ a) :
    splitAtComma (a ++ ',' :: b) = some (a, b) := by
  induction a with
  | nil => simp [splitAtComma]
  | cons c cs ih =>
    have hc : ¬(c = ',') := by
      intro h
      exact ha (by rw [h]; exact List.mem_cons_self ',' cs)
    rw [List.cons_append, splitAtComma, if_neg hc,
      ih (fun h => ha (List.mem_cons_of_mem c h))]
    rfl

theorem pySplitComma_four (k r b a : List Char)
    (hk : ',' ∉ k) (hr : ',' ∉ r) (hb : ',' ∉ b) :
    pySplitComma 3 (k ++ ',' :: (r ++ ',' :: (b ++ ',' :: a))) = [k, r, b, a] := by
  simp only [pySplitComma, splitAtComma_append k _ hk, splitAtComma_append r _ hr,
    splitAtComma_append b _ hb]

theorem split4_four (k r b a : List Char)
    (hk : ',' ∉ k) (hr : ',' ∉ r) (hb : ',' ∉ b) :
    split4 (k ++ ',' :: (r ++ ',' :: (b ++ ',' :: a))) = (k, r, b, a) := by
  simp only [split4, pySplitComma_four k r b a hk hr hb]

theorem intDecimal_mem (i : Int) (c : Char) (hc : c ∈ intDecimal i) :
    c.isDigit = true ∨ c = '-' := by
  rw [intDecimal] at hc
  split_ifs at hc
  · rcases List.mem_cons.1 hc with h | h
    · exact Or.inr h
    · exact Or.inl (natDecimal_digits _ c h)
  · exact Or.inl (natDecimal_digits _ c hc)

theorem intDecimal_no_comma (i : Int) : ',' ∉ intDecimal i := by
  intro h
  rcases intDecimal_mem i ',' h with h1 | h1
  · exact absurd h1 (by decide)
  · cases h1

theorem intDecimal_no_break (i : Int) (c : Char) (hc : c ∈ intDecimal i) :
    pyIsLineBreak c = false := by
  rcases intDecimal_mem i c hc with h1 | h1
  · exact pyIsLineBreak_eq_false_of_isDigit c h1
  · subst h1; decide

theorem goodFieldChars_no_comma (cs : List Char) (h : goodFieldChars cs = true) :
    ',' ∉ cs := by
  intro hm
  have := List.all_eq_true.1 h ',' hm
  simp at this

theorem goodFieldChars_no_break (cs : List Char) (h : goodFieldChars cs = true)
    (c : Char) (hc : c ∈ cs) : pyIsLineBreak c = false := by
  have := List.all_eq_true.1 h c hc
  simp only [Bool.and_eq_true, Bool.not_eq_true'] at this
  exact this.2

/-- Semantics of the `x or ''` written by `push_entries` on a good optional
field, as read back by `x or None` in `fetch_entries`. -/
theorem orNoneChars_getD (o : Option String) (ho : goodOptField o = true) :
    orNoneChars (o.getD "").data = o := by
  cases o with
  | none => rfl
  | some s =>
    simp only [goodOptField, Bool.and_eq_true, Bool.not_eq_true'] at ho
    rw [Option.getD_some, orNoneChars, if_neg (by rw [ho.1]; simp)]

theorem serializeEntry_getLast? (e : Entry) :
    (serializeEntry e).getLast? = (',' :: (e.redeemed_at.getD "").data).getLast? := by
  rw [serializeEntry, List.getLast?_append_cons,
    show (',' :: (intDecimal e.role_id ++
        ',' :: ((e.redeemed_by.getD "").data ++ ',' :: (e.redeemed_at.getD "").data))) =
      (',' :: intDecimal e.role_id) ++
        ',' :: ((e.redeemed_by.getD "").data ++ ',' :: (e.redeemed_at.getD "").data) from rfl,
    List.getLast?_append_cons,
    show (',' :: ((e.redeemed_by.getD "").data ++ ',' :: (e.redeemed_at.getD "").data)) =
      (',' :: (e.redeemed_by.getD "").data) ++ ',' :: (e.redeemed_at.getD "").data from rfl,
    List.getLast?_append_cons]

theorem key_data_ne_nil (e : Entry) (hk : e.key.data.isEmpty = false) :
    e.key.data ≠ [] := by
  intro hnil
  rw [hnil] at hk
  simp at hk

theorem serializeEntry_strip (e : Entry) (hg : goodEntry e = true) :
    pyStrip (serializeEntry e) = serializeEntry e := by
  simp only [goodEntry, Bool.and_eq_true, Bool.not_eq_true'] at hg
  obtain ⟨⟨⟨⟨⟨⟨hk, hhash⟩, hhead⟩, hkf⟩, hby⟩, hat⟩, hlast⟩ := hg
  refine pyStrip_eq_self _ ?_ ?_
  · intro c hc
    rw [serializeEntry,
      List.head?_append_of_ne_nil e.key.data (key_data_ne_nil e hk)] at hc
    rw [hc] at hhead
    exact hhead
  · intro c hc
    rw [serializeEntry_getLast? e] at hc
    cases hat' : (e.redeemed_at.getD "").data with
    | nil =>
      rw [hat'] at hc
      rw [List.getLast?_singleton, Option.some_inj] at hc
      subst hc
      decide
    | cons d rest =>
      rw [hat', List.getLast?_cons_cons] at hc
      rw [hat'] at hlast
      rw [hc] at hlast
      exact hlast

theorem parseLine_serializeEntry (e : Entry) (hg : goodEntry e = true) :
    parseLine (serializeEntry e) = some e := by
  have hg' := hg
  simp only [goodEntry, Bool.and_eq_true, Bool.not_eq_true'] at hg'
  obtain ⟨⟨⟨⟨⟨⟨hk, hhash⟩, hhead⟩, hkf⟩, hby⟩, hat⟩, hlast⟩ := hg'
  have hbyChars : goodFieldChars (e.redeemed_by.getD "").data = true := by
    cases hb : e.redeemed_by with
    | none => rfl
    | some s =>
      rw [hb] at hby
      simp only [goodOptField, Bool.and_eq_true] at hby
      exact hby.2
  have hsplit := split4_four e.key.data (intDecimal e.role_id)
    (e.redeemed_by.getD "").data (e.redeemed_at.getD "").data
    (goodFieldChars_no_comma _ hkf) (intDecimal_no_comma e.role_id)
    (goodFieldChars_no_comma _ hbyChars)
  have hne : ¬(serializeEntry e).isEmpty = true := by
    rw [serializeEntry]
    cases hke : e.key.data with
    | nil => rw [hke] at hk; simp at hk
    | cons c cs => simp
  have hhash2 : ¬((serializeEntry e).head? = some '#') := by
    rw [serializeEntry,
      List.head?_append_of_ne_nil e.key.data (key_data_ne_nil e hk)]
    intro hcon
    rw [hcon] at hhash
    simp at hhash
  simp only [parseLine, serializeEntry_strip e hg, if_neg hne, if_neg hhash2]
  simp only [serializeEntry, hsplit, pyIntChars_intDecimal, orNoneChars_getD _ hby,
    orNoneChars_getD _ hat]

theorem serializeEntry_ne_nil (e : Entry) (hg : goodEntry e = true) :
    serializeEntry e ≠ [] := by
  simp only [goodEntry, Bool.and_eq_true, Bool.not_eq_true'] at hg
  rw [serializeEntry]
  cases hke : e.key.data with
  | nil => rw [hke] at hg; simp at hg
  | cons c cs => simp

theorem serializeEntry_no_break (e : Entry) (hg : goodEntry e = true) :
    ∀ c ∈ serializeEntry e, pyIsLineBreak c = false := by
  simp only [goodEntry, Bool.and_eq_true, Bool.not_eq_true'] at hg
  obtain ⟨⟨⟨⟨⟨⟨hk, hhash⟩, hhead⟩, hkf⟩, hby⟩, hat⟩, hlast⟩ := hg
  have hbyChars : goodFieldChars (e.redeemed_by.getD "").data = true := by
    cases hb : e.redeemed_by with
    | none => rfl
    | some s =>
      rw [hb] at hby
      simp only [goodOptField, Bool.and_eq_true] at hby
      exact hby.2
  have hatChars : goodFieldChars (e.redeemed_at.getD "").data = true := by
    cases hb : e.redeemed_at with
    | none => rfl
    | some s =>
      rw [hb] at hat
      simp only [goodOptField, Bool.and_eq_true] at hat
      exact hat.2
  intro c hc
  rw [serializeEntry] at hc
  rcases List.mem_append.1 hc with h | h
  · exact goodFieldChars_no_break _ hkf c h
  rcases List.mem_cons.1 h with h | h
  · subst h; decide
  rcases List.mem_append.1 h with h | h
  · exact intDecimal_no_break e.role_id c h
  rcases List.mem_cons.1 h with h | h
  · subst h; decide
  rcases List.mem_append.1 h with h | h
  · exact goodFieldChars_no_break _ hbyChars c h
  rcases List.mem_cons.1 h with h | h
  · subst h; decide
  · exact goodFieldChars_no_break _ hatChars c h

theorem joinLines_ne_nil (l : List Char) (ls : List (List Char)) (hl : l ≠ []) :
    joinLines (l :: ls) ≠ [] := by
  cases ls with
  | nil => exact hl
  | cons l2 ls2 => simp [joinLines]

theorem pySplitlinesAux_no_break (l : List Char) :
    ∀ acc cs, (∀ c ∈ l, pyIsLineBreak c = false) →
      pySplitlinesAux acc (l ++ cs) = pySplitlinesAux (l.reverse ++ acc) cs := by
  induction l with
  | nil => intro acc cs _; rfl
  | cons c l' ih =>
    intro acc cs hbf
    have hc : pyIsLineBreak c = false := hbf c (by simp)
    rw [List.cons_append]
    cases hlc : l' ++ cs with
    | nil =>
      obtain ⟨hl', hcs⟩ := List.append_eq_nil.1 hlc
      subst hl'
      subst hcs
      simp [pySplitlinesAux, hc]
    | cons d rest =>
      have hcr : ¬(c = '\r') := by
        intro h
        subst h
        exact absurd hc (by decide)
      have hstep : pySplitlinesAux acc (c :: d :: rest) =
          pySplitlinesAux (c :: acc) (d :: rest) := by
        rw [pySplitlinesAux]
        simp [hc, hcr]
      rw [hstep, ← hlc,
        ih (c :: acc) cs (fun x hx => hbf x (List.mem_cons_of_mem c hx))]
      simp [List.reverse_cons, List.append_assoc]

theorem pySplitlines_joinLines (lines : List (List Char))
    (h : ∀ l ∈ lines, l ≠ [] ∧ ∀ c ∈ l, pyIsLineBreak c = false) :
    pySplitlines (joinLines lines) = lines := by
  induction lines with
  | nil => rfl
  | cons l ls ih =>
    obtain ⟨hl, hbf⟩ := h l (by simp)
    cases ls with
    | nil =>
      cases l with
      | nil => exact absurd rfl hl
      | cons c l'' =>
        rw [show joinLines [c :: l''] = c :: l'' from rfl,
          show pySplitlines (c :: l'') = pySplitlinesAux [] (c :: l'') from rfl,
          show (c :: l'' : List Char) = (c :: l'') ++ [] from by simp,
          pySplitlinesAux_no_break (c :: l'') [] [] hbf]
        simp [pySplitlinesAux]
    | cons l2 ls2 =>
      have hl2 : joinLines (l2 :: ls2) ≠ [] := joinLines_ne_nil l2 ls2 (h l2 (by simp)).1
      cases l with
      | nil => exact absurd rfl hl
      | cons c l'' =>
        rw [show joinLines ((c :: l'') :: l2 :: ls2) =
              (c :: l'') ++ '\n' :: joinLines (l2 :: ls2) from rfl]
        rw [show pySplitlines ((c :: l'') ++ '\n' :: joinLines (l2 :: ls2)) =
              pySplitlinesAux [] ((c :: l'') ++ '\n' :: joinLines (l2 :: ls2)) from by
            rw [List.cons_append]; rfl]
        rw [pySplitlinesAux_no_break (c :: l'') [] ('\n' :: joinLines (l2 :: ls2)) hbf]
        cases hR : joinLines (l2 :: ls2) with
        | nil => exact absurd hR hl2
        | cons d rest =>
          rw [pySplitlinesAux, if_neg (by simp), if_pos (by decide)]
          have hrec : pySplitlinesAux [] (d :: rest) = l2 :: ls2 := by
            have := ih (fun x hx => h x (List.mem_cons_of_mem _ hx))
            rw [hR] at this
            rw [show pySplitlines (d :: rest) = pySplitlinesAux [] (d :: rest) from rfl] at this
            exact this
          rw [hrec]
          simp

theorem filterMap_parse_serialize (entries : List Entry)
    (h : ∀ e ∈ entries, goodEntry e = true) :
    (entries.map serializeEntry).filterMap parseLine = entries := by
  induction entries with
  | nil => rfl
  | cons e es ih =>
    simp only [List.map_cons, List.filterMap_cons,
      parseLine_serializeEntry e (h e (by simp)),
      ih (fun x hx => h x (by simp [hx]))]

/-- Claim C9 is false as stated: the entry with key `" A"` satisfies every
condition the claim imposes (nonempty key, no leading `#`, no commas or
newlines in any field), yet fetching after pushing strips the leading space
from the line and returns key `"A"` instead. -/
theorem claim_C9_counterexample :
    ((" A" : String) ≠ "" ∧ (" A" : String).data.head? ≠ some '#' ∧
      (" A" : String).data.all (fun c => !(c == ',') && !(c == '\n')) = true) ∧
    fetchEntries (pushContent [⟨" A", 5, none, none⟩]) = [⟨"A", 5, none, none⟩] ∧
    fetchEntries (pushContent [⟨" A", 5, none, none⟩]) ≠ [⟨" A", 5, none, none⟩] := by
  exact ⟨⟨by decide, by decide, by decide⟩, by decide, by decide⟩

/-- Claim C9 (amended): fetching after pushing returns exactly the pushed
list, in order, provided additionally that keys do not begin with
whitespace, a present `redeemed_at` does not end with whitespace, fields
contain none of the characters `splitlines` breaks at (not only `\n`), and
the optional fields are never present-but-empty — the conditions of
`goodEntry`, which strengthen the claim's own hypotheses exactly where the
counterexample shows they are too weak. -/
theorem claim_C9_push_fetch_roundtrip (entries : List Entry)
    (h : entries.all goodEntry = true) :
    fetchEntries (pushContent entries) = entries := by
  have hgood : ∀ e ∈ entries, goodEntry e = true := fun e he => List.all_eq_true.1 h e he
  have hlines : ∀ l ∈ entries.map serializeEntry,
      l ≠ [] ∧ ∀ c ∈ l, pyIsLineBreak c = false := by
    intro l hl
    obtain ⟨e, he, rfl⟩ := List.mem_map.1 hl
    exact ⟨serializeEntry_ne_nil e (hgood e he), serializeEntry_no_break e (hgood e he)⟩
  rw [fetchEntries,
    show (pushContent entries).data = joinLines (entries.map serializeEntry) from rfl,
    pySplitlines_joinLines _ hlines, fetchLoop_eq_filterMap,
    filterMap_parse_serialize entries hgood]

/-- Witness for `claim_C9_push_fetch_roundtrip`: an unredeemed and a
redeemed record (negative role id included) round-trip through the gist
document unchanged. -/
theorem claim_C9_push_fetch_roundtrip_witness :
    fetchEntries (pushContent
        [⟨"ABC123XYZ789", 555, none, none⟩,
         ⟨"K2", -7, some "42", some "2024-01-01T00:00:00"⟩]) =
      [⟨"ABC123XYZ789", 555, none, none⟩,
       ⟨"K2", -7, some "42", some "2024-01-01T00:00:00"⟩] :=
  claim_C9_push_fetch_roundtrip
    [⟨"ABC123XYZ789", 555, none, none⟩,
     ⟨"K2", -7, some "42", some "2024-01-01T00:00:00"⟩] (by decide)

/-! License signing (claim C3): the canonical JSON payload, HMAC-SHA256
(implemented in full over byte lists, words as `Nat` reduced mod `2^32`),
and the spec-modelled external verifier. -/

/-- Reduce to a 32-bit word. -/
def w32 (n : Nat) : Nat := n % 4294967296

/-- Rotate a 32-bit word right by `n` positions. -/
def rotr32 (n x : Nat) : Nat := w32 ((x >>> n) ||| (x <<< (32 - n)))

def shaCh (x y z : Nat) : Nat := (x &&& y) ^^^ ((4294967295 ^^^ x) &&& z)

def shaMaj (x y z : Nat) : Nat := (x &&& y) ^^^ (x &&& z) ^^^ (y &&& z)

def bigSigma0 (x : Nat) : Nat := rotr32 2 x ^^^ rotr32 13 x ^^^ rotr32 22 x

def bigSigma1 (x : Nat) : Nat := rotr32 6 x ^^^ rotr32 11 x ^^^ rotr32 25 x

def smallSigma0 (x : Nat) : Nat := rotr32 7 x ^^^ rotr32 18 x ^^^ (x >>> 3)

def smallSigma1 (x : Nat) : Nat := rotr32 17 x ^^^ rotr32 19 x ^^^ (x >>> 10)

/-- The 64 SHA-256 round constants (FIPS 180-2, here in decimal). -/
def shaK : List Nat :=
  [1116352408, 1899447441, 3049323471, 3921009573, 961987163,
   1508970993, 2453635748, 2870763221, 3624381080, 310598401,
   607225278, 1426881987, 1925078388, 2162078206, 2614888103,
   3248222580, 3835390401, 4022224774, 264347078, 604807628,
   770255983, 1249150122, 1555081692, 1996064986, 2554220882,
   2821834349, 2952996808, 3210313671, 3336571891, 3584528711,
   113926993, 338241895, 666307205, 773529912, 1294757372,
   1396182291, 1695183700, 1986661051, 2177026350, 2456956037,
   2730485921, 2820302411, 3259730800, 3345764771, 3516065817,
   3600352804, 4094571909, 275423344, 430227734, 506948616,
   659060556, 883997877, 958139571, 1322822218, 1537002063,
   1747873779, 1955562222, 2024104815, 2227730452, 2361852424,
   2428436474, 2756734187, 3204031479, 3329325298]

/-- The SHA-256 initial hash value (FIPS 180-2, here in decimal). -/
def shaH0 : List Nat :=
  [1779033703, 3144134277, 1013904242, 2773480762,
   1359893119, 2600822924, 528734635, 1541459225]

/-- Big-endian bytes of a 64-bit length field. -/
def be64 (n : Nat) : List Nat :=
  [(n >>> 56) % 256, (n >>> 48) % 256, (n >>> 40) % 256, (n >>> 32) % 256,
   (n >>> 24) % 256, (n >>> 16) % 256, (n >>> 8) % 256, n % 256]

/-- Big-endian bytes of a 32-bit word. -/
def be32 (n : Nat) : List Nat :=
  [(n >>> 24) % 256, (n >>> 16) % 256, (n >>> 8) % 256, n % 256]

/-- SHA-256 message padding: `0x80`, zeros to 56 mod 64, 64-bit bit length. -/
def sha256Pad (msg : List Nat) : List Nat :=
  msg ++ 128 :: (List.replicate ((119 - msg.length % 64) % 64) 0 ++ be64 (msg.length * 8))

/-- Pack bytes into big-endian 32-bit words. -/
def toWords : List Nat → List Nat
  | b0 :: b1 :: b2 :: b3 :: rest =>
    (b0 * 16777216 + b1 * 65536 + b2 * 256 + b3) :: toWords rest
  | _ => []

/-- Extend the 16 message words to 64 schedule words (`t` extension steps
remain). -/
def shaSchedule : Nat → List Nat → List Nat
  | 0, ws => ws
  | t + 1, ws =>
    let n := ws.length
    shaSchedule t (ws ++
      [w32 (smallSigma1 (ws.getD (n - 2) 0) + ws.getD (n - 7) 0 +
        smallSigma0 (ws.getD (n - 15) 0) + ws.getD (n - 16) 0)])

/-- One SHA-256 round on the eight working variables. -/
def shaRound (s : List Nat) (kw : Nat × Nat) : List Nat :=
  match s with
  | [a, b, c, d, e, f, g, h] =>
    let t1 := w32 (h + bigSigma1 e + shaCh e f g + kw.1 + kw.2)
    let t2 := w32 (bigSigma0 a + shaMaj a b c)
    [w32 (t1 + t2), a, b, c, w32 (d + t1), e, f, g]
  | _ => s

/-- Compress one 64-byte block into the running hash. -/
def shaCompress (h : List Nat) (block : List Nat) : List Nat :=
  let ws := shaSchedule 48 (toWords block)
  let s := (shaK.zip ws).foldl shaRound h
  (h.zip s).map (fun p => w32 (p.1 + p.2))

/-- Worker for `chunks64`; any `fuel` at least the list length works, each
step consuming at least one byte. -/
def chunks64Go : Nat → List Nat → List (List Nat)
  | _, [] => []
  | 0, l => [l]
  | fuel + 1, b :: rest => (b :: rest.take 63) :: chunks64Go fuel (rest.drop 63)

/-- Split a (padded) message into 64-byte blocks. -/
def chunks64 (l : List Nat) : List (List Nat) :=
  chunks64Go l.length l

/-- SHA-256 of a byte list, as a 32-byte list. -/
def sha256 (msg : List Nat) : List Nat :=
  (((chunks64 (sha256Pad msg)).foldl shaCompress shaH0).map be32).flatten

/-- Lower-case hex digit. -/
def hexDigitChar (d : Nat) : Char :=
  if d < 10 then Char.ofNat (48 + d) else Char.ofNat (87 + d)

/-- Lower-case hex encoding of a byte list (`.hexdigest()`). -/
def bytesToHex (bs : List Nat) : String :=
  ⟨bs.foldr (fun b acc => hexDigitChar (b / 16 % 16) :: hexDigitChar (b % 16) :: acc) []⟩

/-- HMAC-SHA256 (`hmac.new(key, msg, hashlib.sha256)`), block size 64. -/
def hmacSha256 (key msg : List Nat) : List Nat :=
  let k0 := if 64 < key.length then sha256 key else key
  let kp := k0 ++ List.replicate (64 - k0.length) 0
  sha256 ((kp.map (fun b => b ^^^ 92)) ++ sha256 ((kp.map (fun b => b ^^^ 54)) ++ msg))

/-- UTF-8 encoding of one character (`str.encode()`). -/
def utf8EncodeChar (c : Char) : List Nat :=
  let n := c.toNat
  if n < 128 then [n]
  else if n < 2048 then [192 + n / 64, 128 + n % 64]
  else if n < 65536 then [224 + n / 4096, 128 + (n / 64) % 64, 128 + n % 64]
  else [240 + n / 262144, 128 + (n / 4096) % 64, 128 + (n / 64) % 64, 128 + n % 64]

/-- UTF-8 encoding of a string. -/
def utf8Encode (s : String) : List Nat :=
  (s.data.map utf8EncodeChar).flatten

/-- Four lower-case hex digits of a 16-bit value. -/
def hex4 (n : Nat) : List Char :=
  [hexDigitChar (n / 4096 % 16), hexDigitChar (n / 256 % 16),
   hexDigitChar (n / 16 % 16), hexDigitChar (n % 16)]

/-- JSON string escaping as `json.dumps` performs it with its default
`ensure_ascii=True`: the two mandatory escapes, the short control escapes,
`\uXXXX` for remaining control characters and all non-ASCII characters
(surrogate pairs above the BMP). -/
def jsonEscapeChar (c : Char) : List Char :=
  if c = '"' then ['\\', '"']
  else if c = '\\' then ['\\', '\\']
  else if c = '\n' then ['\\', 'n']
  else if c = '\r' then ['\\', 'r']
  else if c = '\t' then ['\\', 't']
  else if c = '\x08' then ['\\', 'b']
  else if c = '\x0c' then ['\\', 'f']
  else if c.toNat < 32 then '\\' :: 'u' :: hex4 c.toNat
  else if c.toNat < 128 then [c]
  else if c.toNat < 65536 then '\\' :: 'u' :: hex4 c.toNat
  else
    ('\\' :: 'u' :: hex4 (55296 + (c.toNat - 65536) / 1024)) ++
      ('\\' :: 'u' :: hex4 (56320 + (c.toNat - 65536) % 1024))

def jsonEscape (s : String) : List Char :=
  (s.data.map jsonEscapeChar).flatten

/-- The canonical payload serialization built by `generate_button`:
`json.dumps(\x7b'key': key, 'issued_at': issued_at\x7d, separators=(',',':'))`
with the dict's insertion order `key`, `issued_at`. -/
def canonicalPayloadChars (key issuedAt : String) : List Char :=
  "\x7b\"key\":\"".data ++ jsonEscape key ++ "\",\"issued_at\":\"".data ++
    jsonEscape issuedAt ++ "\"\x7d".data

/-- The signature computed by `generate_button`:
`hmac.new(HMAC_SECRET.encode(), data, hashlib.sha256).hexdigest()` over the
canonical payload bytes. -/
def issueSignature (secret key issuedAt : String) : String :=
  bytesToHex (hmacSha256 (utf8Encode secret)
    (utf8Encode ⟨canonicalPayloadChars key issuedAt⟩))

/-- Modelled from the spec: the end-user license verifier is an external
collaborator, not part of `src/` (§1, §6).  Per §6 it recomputes
HMAC-SHA256 over the canonical re-serialization of the payload using the
shared secret and compares hex digests; the constant-time comparison is
modeled as plain string equality (timing is not observable in this model). -/
def licenseVerify (key issuedAt sig secret : String) : Bool :=
  bytesToHex (hmacSha256 (utf8Encode secret)
    (utf8Encode ⟨canonicalPayloadChars key issuedAt⟩)) == sig

set_option maxRecDepth 100000 in
/-- SHA-256 sanity check against the FIPS 180-2 test vector for `"abc"`. -/
theorem sha256_abc :
    bytesToHex (sha256 (utf8Encode "abc")) =
      "ba7816bf8f01cfea414140de5dae2223b00361a396177a9cb410ff61f20015ad" := by
  decide

set_option maxRecDepth 100000 in
/-- HMAC-SHA256 sanity check against RFC 4231 test case 2. -/
theorem hmacSha256_rfc4231_case2 :
    bytesToHex (hmacSha256 (utf8Encode "Jefe")
        (utf8Encode "what do ya want for nothing?")) =
      "5bdcc146bf60754e6a042426089575c75a003f089d2739839dec58b964ec3843" := by
  decide

/-- The round-trip conjunct of claim C3: re-verifying the issued payload
with the issued signature and the same secret always succeeds, because the
canonical serialization is deterministic. -/
theorem verify_issue_roundtrip (secret key issuedAt : String) :
    licenseVerify key issuedAt (issueSignature secret key issuedAt) secret = true := by
  simp [licenseVerify, issueSignature]

/-- The signature-tampering conjunct of claim C3: any signature other than
the issued one is rejected. -/
theorem verify_rejects_modified_signature (secret key issuedAt sig : String)
    (h : sig ≠ issueSignature secret key issuedAt) :
    licenseVerify key issuedAt sig secret = false := by
  rw [licenseVerify, beq_eq_false_iff_ne]
  intro hh
  exact h (by rw [← hh]; rfl)

end KeyBot
